import Mathlib

/-!
Verification of `scripts/generate_trace_matrix.py`.

The script is a linear pipeline: parse a requirements document, scan test
files for requirement-id comments, aggregate coverage statistics and render a
trace-matrix table.  We embed it shallowly: text is `List Char`, each regular
expression of the script becomes an explicit matcher with the exact
leftmost/greedy/backtracking semantics of Python `re` on the patterns used
(all character classes are taken in their ASCII reading, which is exact for
the inputs considered here; lines produced by `str.split('\n')` never contain
a newline character).
-/

namespace TraceMatrix

/-- A line (or any piece) of text, as a list of characters. -/
abbrev Line := List Char

/-- Python `\s` (ASCII): space, tab, newline, carriage return, vertical tab, form feed. -/
def isPySpace (c : Char) : Bool :=
  c == ' ' || c == '\t' || c == '\n' || c == '\r' || c == Char.ofNat 11 || c == Char.ofNat 12

/-- The class `[A-Z]` of the requirement-id regexes. -/
def isUpperAZ (c : Char) : Bool := 'A' ≤ c && c ≤ 'Z'

/-- The class `[0-9]` (Python `\d`, ASCII). -/
def isDigit09 (c : Char) : Bool := '0' ≤ c && c ≤ '9'

/-- The class `[\d.]` of the requirement-id regexes. -/
def isIdBody (c : Char) : Bool := isDigit09 c || c == '.'

/-- Python `\w` (ASCII): letters, digits, underscore. -/
def isWordChar (c : Char) : Bool := c.isAlpha || isDigit09 c || c == '_'

/-- Match a literal pattern at the start of the input; return the remainder. -/
def expectLit : Line → Line → Option Line
  | [], s => some s
  | _ :: _, [] => none
  | p :: ps, c :: cs => if p = c then expectLit ps cs else none

/-- Python `str.strip()` on the whitespace set `\s`. -/
def pstrip (s : Line) : Line :=
  ((s.dropWhile isPySpace).reverse.dropWhile isPySpace).reverse

/--
The trailing `\s*(.+)` of the parser regexes: greedily skip whitespace, then
capture at least one character; when everything left is whitespace the greedy
`\s*` backtracks by one character so that `.+` captures the last one.
-/
def tailCapture (s : Line) : Option Line :=
  match s.dropWhile isPySpace with
  | [] =>
    match (s.takeWhile isPySpace).getLast? with
    | some w => some [w]
    | none => none
  | t => some t

/--
`re.match(r'-\s*\*\*([A-Z]+-[\d.]+)\*\*:\s*(.+)', line)` of
`parse_requirements` (src line 72): on success, the captured requirement id
(group 1) and requirement text (group 2).
-/
def matchReqHeader (line : Line) : Option (Line × Line) := do
  let s1 ← expectLit ['-'] line
  let s2 := s1.dropWhile isPySpace
  let s3 ← expectLit ['*', '*'] s2
  let idU := s3.takeWhile isUpperAZ
  guard (idU ≠ [])
  let s4 := s3.dropWhile isUpperAZ
  let s5 ← expectLit ['-'] s4
  let idD := s5.takeWhile isIdBody
  guard (idD ≠ [])
  let s6 := s5.dropWhile isIdBody
  let s7 ← expectLit ['*', '*', ':'] s6
  let text ← tailCapture s7
  pure (idU ++ '-' :: idD, text)

/-- The literal `\*\*KEY\*\*:` middle part of the metadata-line regexes. -/
def metaKeyPat (key : Line) : Line := '*' :: '*' :: key ++ ['*', '*', ':']

/--
`re.match(r'\s*-\s*\*\*KEY\*\*:\s*(.+)', line)` used for the
`- **Priority**:` and `- **Impl Status**:` metadata lines of
`parse_requirements` (src lines 86-95): the captured value on success.
-/
def matchMetaLine (key : Line) (line : Line) : Option Line := do
  let s1 := line.dropWhile isPySpace
  let s2 ← expectLit ['-'] s1
  let s3 := s2.dropWhile isPySpace
  let s4 ← expectLit (metaKeyPat key) s3
  tailCapture s4

/-- The accumulating state of the requirement parser: the current block. -/
structure CurReq where
  rid : Line
  text : Line
  priority : Line
  implStatus : Line
deriving DecidableEq

def unknownTxt : Line := "Unknown".data

/--
`f"{current_req_text} - **Priority**: {current_priority} - **Impl Status**:
{current_impl_status}"` followed by `.strip()` (src lines 76-77 and 99-100).
-/
def buildDescription (c : CurReq) : Line :=
  pstrip (c.text ++ " - **Priority**: ".data ++ c.priority
          ++ " - **Impl Status**: ".data ++ c.implStatus)

/-- The `requirements` dict: insertion-ordered association list over ids. -/
abbrev AList := List (Line × Line)

/-- Python dict assignment `m[k] = v`: overwrite in place, else append. -/
def upsert (k v : Line) : AList → AList
  | [] => [(k, v)]
  | (k', v') :: rest => if k' = k then (k, v) :: rest else (k', v') :: upsert k v rest

def lookupAL (k : Line) : AList → Option Line
  | [] => none
  | (k', v) :: rest => if k' = k then some v else lookupAL k rest

/-- Python `k in requirements`. -/
def isKeyAL (k : Line) (m : AList) : Bool := (lookupAL k m).isSome

/-- Store the accumulated block, if any (src lines 75-77 and 98-100). -/
def flushCur : Option CurReq → AList → AList
  | none, m => m
  | some c, m => upsert c.rid (buildDescription c) m

def priorityKey : Line := "Priority".data

def implStatusKey : Line := "Impl Status".data

/-- One line of the `parse_requirements` loop (src lines 70-95). -/
def parseStep (st : AList × Option CurReq) (line : Line) : AList × Option CurReq :=
  match matchReqHeader line with
  | some (rid, text) =>
    (flushCur st.2 st.1, some ⟨rid, pstrip text, unknownTxt, unknownTxt⟩)
  | none =>
    match st.2 with
    | none => st
    | some c =>
      match matchMetaLine priorityKey line with
      | some v => (st.1, some { c with priority := pstrip v })
      | none =>
        match matchMetaLine implStatusKey line with
        | some v => (st.1, some { c with implStatus := pstrip v })
        | none => st

/-- The trailing flush of the last accumulated block (src lines 98-100). -/
def finishParse (st : AList × Option CurReq) : AList := flushCur st.2 st.1

/-- `parse_requirements` on an already line-split document (src lines 64-100). -/
def parseLines (lines : List Line) : AList :=
  finishParse (lines.foldl parseStep ([], none))

/-- `parse_requirements` (src lines 51-107) on the file content. -/
def parse_requirements (content : Line) : AList :=
  parseLines (content.splitOn '\n')

/-! ## Test scanner (`scan_test_files`, src lines 110-166) -/

/--
Anchored attempt of `Task\s+(\w+)\s*\(`, the tail of the test-method regex
(src line 126): the captured method name on success.
-/
def matchTaskName (s : Line) : Option Line := do
  let r ← expectLit "Task".data s
  let r2 := r.dropWhile isPySpace
  guard (r2.length < r.length)
  let w := r2.takeWhile isWordChar
  guard (w ≠ [])
  let r3 := r2.dropWhile isWordChar
  let r4 := r3.dropWhile isPySpace
  let _ ← expectLit ['('] r4
  pure w

/--
Anchored attempt of `public\s+(?:async\s+)?Task\s+(\w+)\s*\(` (src line 126);
the optional `async\s+` group is tried first, as Python `re` does.
-/
def matchTestMethodAt (s : Line) : Option Line := do
  let r ← expectLit "public".data s
  let r2 := r.dropWhile isPySpace
  guard (r2.length < r.length)
  (do
    let a ← expectLit "async".data r2
    let a2 := a.dropWhile isPySpace
    guard (a2.length < a.length)
    matchTaskName a2) <|> matchTaskName r2

/-- `re.search` with the test-method pattern: try every position, leftmost first. -/
def searchTestMethod : Line → Option Line
  | [] => matchTestMethodAt []
  | c :: rest => matchTestMethodAt (c :: rest) <|> searchTestMethod rest

/--
Anchored attempt of one requirement id `[A-Z]+-[\d.]+` inside the comment
regex (src line 123): the matched id text and the remainder.
-/
def matchReqIdTok (s : Line) : Option (Line × Line) := do
  let u := s.takeWhile isUpperAZ
  guard (u ≠ [])
  let s1 := s.dropWhile isUpperAZ
  let s2 ← expectLit ['-'] s1
  let d := s2.takeWhile isIdBody
  guard (d ≠ [])
  pure (u ++ '-' :: d, s2.dropWhile isIdBody)

/-- One greedy iteration of `(?:\s*,\s*[A-Z]+-[\d.]+)` : matched text and remainder. -/
def reqListIter (s : Line) : Option (Line × Line) := do
  let sp1 := s.takeWhile isPySpace
  let s1 := s.dropWhile isPySpace
  let s2 ← expectLit [','] s1
  let sp2 := s2.takeWhile isPySpace
  let s3 := s2.dropWhile isPySpace
  let (idt, rest) ← matchReqIdTok s3
  pure (sp1 ++ ',' :: (sp2 ++ idt), rest)

/-- The greedy `*` repetition over `reqListIter`; each iteration consumes the comma. -/
def reqListRest : Nat → Line → Line
  | 0, _ => []
  | fuel + 1, s =>
    match reqListIter s with
    | none => []
    | some (txt, rest) => txt ++ reqListRest fuel rest

/--
Anchored attempt of `//\s*([A-Z]+-[\d.]+(?:\s*,\s*[A-Z]+-[\d.]+)*)`
(src line 123): the captured group 1 on success.
-/
def matchReqCommentAt (s : Line) : Option Line := do
  let r ← expectLit "//".data s
  let r2 := r.dropWhile isPySpace
  let (idt, rest) ← matchReqIdTok r2
  pure (idt ++ reqListRest rest.length rest)

/-- `re.search` with the requirement-comment pattern: leftmost position first. -/
def searchReqComment : Line → Option Line
  | [] => matchReqCommentAt []
  | c :: rest => matchReqCommentAt (c :: rest) <|> searchReqComment rest

/-- The `requirement_tests` dict: id → insertion-ordered list of (file, test) pairs. -/
abbrev RTMap := List (Line × List (Line × Line))

def lookupRT (k : Line) : RTMap → Option (List (Line × Line))
  | [] => none
  | (k', v) :: rest => if k' = k then some v else lookupRT k rest

/-- Python `req_id in requirement_tests`. -/
def isKeyRT (k : Line) (m : RTMap) : Bool := (lookupRT k m).isSome

/-- The list bound to an id, `[]` when the id is not a key. -/
def refsOf (k : Line) (m : RTMap) : List (Line × Line) := (lookupRT k m).getD []

/--
Recording one reference (src lines 151-158): create the entry if missing,
then append the (file, test) pair unless it is already present.
-/
def addRef (rid : Line) (ti : Line × Line) : RTMap → RTMap
  | [] => [(rid, [ti])]
  | (k, ts) :: rest =>
    if k = rid then (k, if ti ∈ ts then ts else ts ++ [ti]) :: rest
    else (k, ts) :: addRef rid ti rest

/-- Update of `current_test_method` on one line (src lines 138-140). -/
def stepMethod (cur : Option Line) (line : Line) : Option Line :=
  match searchTestMethod line with
  | some m => some m
  | none => cur

/-- One line of the per-file scanning loop (src lines 136-158). -/
def scanLineStep (relPath : Line) (st : RTMap × Option Line) (line : Line) :
    RTMap × Option Line :=
  let cur := stepMethod st.2 line
  match searchReqComment line, cur with
  | some g, some meth =>
    (((g.splitOn ',').map pstrip).foldl (fun m rid => addRef rid (relPath, meth) m) st.1,
     cur)
  | _, _ => (st.1, cur)

/-- Scanning one file: fold its lines with `current_test_method = None` initially. -/
def scanFile (m : RTMap) (f : Line × List Line) : RTMap :=
  (f.2.foldl (scanLineStep f.1) (m, none)).1

/--
`scan_test_files` (src lines 110-166) over the enumerated files, each given as
its project-root-relative path together with its lines (directory traversal
and path relativisation are filesystem concerns outside the embedding).
-/
def scan_test_files (files : List (Line × List Line)) : RTMap :=
  files.foldl scanFile []

/-! ## Coverage aggregation and rendering (src lines 169-728)

The markdown renderer (`generate_trace_matrix`, src lines 573-728) and the
HTML renderer (`generate_html_trace_matrix`, src lines 169-570) contain
textually identical aggregation and row-generation code; each definition
below embeds both copies at once (line numbers cite the markdown copy).
-/

/-- Anchored attempt of `\*\*Priority\*\*:\s*(\w+)` (src lines 590, 676). -/
def matchPriorityAt (s : Line) : Option Line := do
  let s1 ← expectLit "**Priority**:".data s
  let s2 := s1.dropWhile isPySpace
  let w := s2.takeWhile isWordChar
  guard (w ≠ [])
  pure w

def searchPriority : Line → Option Line
  | [] => matchPriorityAt []
  | c :: rest => matchPriorityAt (c :: rest) <|> searchPriority rest

/-- The priority used by stats and rendering: the capture, else `"Unknown"`. -/
def extractPriority (d : Line) : Line := (searchPriority d).getD unknownTxt

def implMarker : Line := "**Impl Status**:".data

/--
Anchored attempt of `\*\*Impl Status\*\*:\s*([^-]+)` (src lines 681-683):
greedy `\s*`, then `[^-]+`; when the first non-space character is `-` (or the
input ends) the greedy `\s*` backtracks one space so that `[^-]+` captures it.
-/
def matchImplAt (l : Line) : Option Line :=
  match expectLit implMarker l with
  | none => none
  | some r =>
    match r.dropWhile isPySpace with
    | [] =>
      match (r.takeWhile isPySpace).getLast? with
      | some w => some [w]
      | none => none
    | ch :: t' =>
      if ch = '-' then
        match (r.takeWhile isPySpace).getLast? with
        | some w => some [w]
        | none => none
      else some ((ch :: t').takeWhile (fun a => a != '-'))

def searchImpl : Line → Option Line
  | [] => matchImplAt []
  | c :: rest => matchImplAt (c :: rest) <|> searchImpl rest

/-- `impl_status`: the stripped capture, defaulting to `"Unknown"` (src 672, 681-683). -/
def extractImplStatus (d : Line) : Line :=
  match searchImpl d with
  | some cap => pstrip cap
  | none => unknownTxt

/--
Anchored attempt of the `re.sub` pattern `\s*-\s*\*\*KEY\*\*:[^-]*`
(src lines 686-688): the length of the match at this position.
-/
def matchSubAt (key : Line) (s : Line) : Option Nat := do
  let sp1 := s.takeWhile isPySpace
  let s1 := s.dropWhile isPySpace
  let s2 ← expectLit ['-'] s1
  let sp2 := s2.takeWhile isPySpace
  let s3 := s2.dropWhile isPySpace
  let s4 ← expectLit (metaKeyPat key) s3
  let body := s4.takeWhile (fun a => a != '-')
  pure (sp1.length + 1 + sp2.length + (metaKeyPat key).length + body.length)

/--
`re.sub(pattern, '', text)`: scan left to right, delete each leftmost
non-overlapping match and continue after it.  Every match contains the `-`,
so it is non-empty and one unit of fuel per character suffices.
-/
def subAllAux (key : Line) : Nat → Line → Line
  | 0, s => s
  | _ + 1, [] => []
  | fuel + 1, c :: rest =>
    match matchSubAt key (c :: rest) with
    | some L => subAllAux key fuel ((c :: rest).drop L)
    | none => c :: subAllAux key fuel rest

def subAll (key : Line) (s : Line) : Line := subAllAux key s.length s

/-- The requirement-text cleanup and final strip (src lines 685-689). -/
def cleanText (d : Line) : Line :=
  pstrip (subAll "Verification".data (subAll implStatusKey (subAll priorityKey d)))

/-- `text.replace('|', '\\|')` (src lines 696-698, 703). -/
def escapePipes (s : Line) : Line :=
  s.flatMap (fun c => if c = '|' then ['\\', '|'] else [c])

/-- One rendered trace-matrix row (the six table cells, src lines 700 and 704). -/
structure Row where
  reqId : Line
  priority : Line
  implStatus : Line
  reqText : Line
  testFile : Line
  testCase : Line
deriving DecidableEq

/-- The fixed sentinel written in both test columns of an uncovered requirement. -/
def noCoverageText : Line := "❌ No test coverage".data

/-- The rows rendered for one requirement entry (src lines 669-704). -/
def rowsFor (tests : RTMap) (kv : Line × Line) : List Row :=
  let priority := extractPriority kv.2
  let implStatus := extractImplStatus kv.2
  let reqText := cleanText kv.2
  match lookupRT kv.1 tests with
  | some ts =>
    ts.map (fun ti =>
      ⟨kv.1, priority, implStatus, escapePipes reqText, escapePipes ti.1, escapePipes ti.2⟩)
  | none =>
    [⟨kv.1, priority, implStatus, escapePipes reqText, noCoverageText, noCoverageText⟩]

/-- Python string `<`-comparison, character code point by code point. -/
def lineLe : Line → Line → Bool
  | [], _ => true
  | _ :: _, [] => false
  | a :: as', b :: bs => if a < b then true else if b < a then false else lineLe as' bs

/-- Python tuple comparison used by `sorted(requirements.items())` (src line 667). -/
def pairLe (x y : Line × Line) : Bool :=
  if x.1 = y.1 then lineLe x.2 y.2 else lineLe x.1 y.1

/-- The full trace-matrix table body: sorted requirements, rows per entry. -/
def matrixRows (reqs : AList) (tests : RTMap) : List Row :=
  (reqs.mergeSort pairLe).flatMap (rowsFor tests)

/-- `len(requirements)` (src line 582). -/
def total_requirements (reqs : AList) : Nat := reqs.length

/-- `len([req_id for req_id in requirements.keys() if req_id in requirement_tests])` (src 583). -/
def covered_requirements (reqs : AList) (tests : RTMap) : Nat :=
  (reqs.filter (fun kv => isKeyRT kv.1 tests)).length

/-- `(covered / total * 100) if total > 0 else 0` (src lines 584, 604, 634, 638). -/
def coveragePct (cov total : Nat) : ℚ :=
  if 0 < total then (cov : ℚ) / (total : ℚ) * 100 else 0

def coverage_percentage (reqs : AList) (tests : RTMap) : ℚ :=
  coveragePct (covered_requirements reqs tests) (total_requirements reqs)

/-- The substring tested by the implemented-subset comprehension (src line 601). -/
def implNeedle : Line := "Impl Status**: Implemented".data

def litHere (pat s : Line) : Bool := (expectLit pat s).isSome

/-- Python substring containment `pat in s`. -/
def containsSub (pat : Line) : Line → Bool
  | [] => litHere pat []
  | c :: rest => litHere pat (c :: rest) || containsSub pat rest

/-- `{req_id: desc for req_id, desc in requirements.items() if "Impl Status**: Implemented" in desc}` (src 601). -/
def implemented_reqs (reqs : AList) : AList :=
  reqs.filter (fun kv => containsSub implNeedle kv.2)

def total_implemented (reqs : AList) : Nat := (implemented_reqs reqs).length

def covered_implemented (reqs : AList) (tests : RTMap) : Nat :=
  ((implemented_reqs reqs).filter (fun kv => isKeyRT kv.1 tests)).length

def coverage_implemented_percentage (reqs : AList) (tests : RTMap) : ℚ :=
  coveragePct (covered_implemented reqs tests) (total_implemented reqs)

/-- Priority buckets: insertion-ordered (priority, total, covered) entries. -/
abbrev StatMap := List (Line × Nat × Nat)

/-- One loop body of the per-priority tallies (src lines 608-615). -/
def bumpStat (p : Line) (cov : Bool) : StatMap → StatMap
  | [] => [(p, 1, if cov then 1 else 0)]
  | (q, t, c) :: rest =>
    if q = p then (q, t + 1, if cov then c + 1 else c) :: rest
    else (q, t, c) :: bumpStat p cov rest

def lookupStat (p : Line) : StatMap → Option (Nat × Nat)
  | [] => none
  | (q, tc) :: rest => if q = p then some tc else lookupStat p rest

def isKeyStat (p : Line) (st : StatMap) : Bool := (lookupStat p st).isSome

/-- `priority_stats_all` (src lines 607-615). -/
def priority_stats_all (reqs : AList) (tests : RTMap) : StatMap :=
  reqs.foldl (fun st kv => bumpStat (extractPriority kv.2) (isKeyRT kv.1 tests) st) []

/-- `priority_stats_impl`: the same loop over the implemented subset (src 618-626). -/
def priority_stats_impl (reqs : AList) (tests : RTMap) : StatMap :=
  priority_stats_all (implemented_reqs reqs) tests

/-- The fixed bucket enumeration `['Critical', 'High', 'Medium', 'Low', 'Unknown']` (src 631). -/
def priorityOrder : List Line :=
  ["Critical".data, "High".data, "Medium".data, "Low".data, "Unknown".data]

/--
The per-priority summary lines (src lines 629-639): for each name of the fixed
enumeration that is a key of the stats, the (priority, covered, total,
percentage) data of its rendered line.
-/
def prioritySummaryRows (stats : StatMap) : List (Line × Nat × Nat × ℚ) :=
  priorityOrder.filterMap
    (fun p => (lookupStat p stats).map (fun tc => (p, tc.2, tc.1, coveragePct tc.2 tc.1)))

/-- The total count recorded for a priority bucket, 0 when the bucket is absent. -/
def statTotal (p : Line) (st : StatMap) : Nat := ((lookupStat p st).map Prod.fst).getD 0

/--
The exit behaviour of `main` (src lines 731-774) together with the
`sys.exit(1)` calls of the two writers (src lines 570 and 728): the
dependency check runs first, an empty parse aborts, then each writer aborts
when its output cannot be written.  The returned value is the process exit
code, with the file-system outcomes of the two writes as parameters.
-/
def mainExitCode (markdownAvailable : Bool) (doc : Line)
    (writeMdOk writeHtmlOk : Bool) : Nat :=
  if !markdownAvailable then 1
  else if (parse_requirements doc).isEmpty then 1
  else if !writeMdOk then 1
  else if !writeHtmlOk then 1
  else 0

/-- No line of `ls` is a requirement-header line for the identifier `rid`. -/
def noHeaderFor (rid : Line) (ls : List Line) : Bool :=
  ls.all (fun l =>
    match matchReqHeader l with
    | some p => decide (p.1 ≠ rid)
    | none => true)

/-- The `current_test_method` value after scanning a list of lines. -/
def curAfter (cur : Option Line) (ls : List Line) : Option Line :=
  ls.foldl stepMethod cur

/-! ## Sanity checks of the embedding on concrete inputs -/

theorem parse_requirements_example :
    parseLines ["- **TOR-1.1**: Must log errors".data,
                "  - **Priority**: High".data,
                "  - **Impl Status**: Implemented".data]
      = [("TOR-1.1".data,
          "Must log errors - **Priority**: High - **Impl Status**: Implemented".data)] := by
  decide

theorem searchTestMethod_example :
    searchTestMethod "    public async Task ValidatesBoundaries()".data
      = some "ValidatesBoundaries".data := by decide

theorem searchReqComment_example :
    searchReqComment "        // TOR-2.1, TOR-2.2 ok".data
      = some "TOR-2.1, TOR-2.2".data := by decide

theorem scan_test_files_example :
    scan_test_files [("test/A.cs".data,
      ["public Task MyTest(".data, "// TOR-2.1, TOR-2.2".data])]
    = [("TOR-2.1".data, [("test/A.cs".data, "MyTest".data)]),
       ("TOR-2.2".data, [("test/A.cs".data, "MyTest".data)])] := by decide

/-! ## Association-list lemmas -/

theorem lookupAL_upsert_self (k v : Line) (m : AList) :
    lookupAL k (upsert k v m) = some v := by
  induction m with
  | nil => simp [upsert, lookupAL]
  | cons kv rest ih =>
    obtain ⟨k', v'⟩ := kv
    by_cases hk : k' = k
    · subst hk
      simp [upsert, lookupAL]
    · simp [upsert, lookupAL, hk, ih]

theorem lookupAL_upsert_ne (k k' v : Line) (m : AList) (h : k' ≠ k) :
    lookupAL k' (upsert k v m) = lookupAL k' m := by
  induction m with
  | nil =>
    simp only [upsert, lookupAL]
    rw [if_neg (fun hk => h hk.symm)]
  | cons kv rest ih =>
    obtain ⟨a, b⟩ := kv
    simp only [upsert]
    by_cases ha : a = k
    · rw [if_pos ha]
      subst ha
      simp only [lookupAL]
      rw [if_neg (fun hk => h hk.symm), if_neg (fun hk => h hk.symm)]
    · rw [if_neg ha]
      simp only [lookupAL]
      by_cases ha' : a = k'
      · rw [if_pos ha', if_pos ha']
      · rw [if_neg ha', if_neg ha', ih]

/-! ## C3: duplicate requirement identifiers are last-write-wins -/

theorem noHeaderFor_cons (rid : Line) (l : Line) (ls : List Line) :
    noHeaderFor rid (l :: ls) =
      ((match matchReqHeader l with
        | some p => decide (p.1 ≠ rid)
        | none => true) && noHeaderFor rid ls) := by
  simp [noHeaderFor]

theorem lookup_parse_no_header (rid : Line) :
    ∀ (ls : List Line) (m : AList) (cur : Option CurReq),
      (∀ c, cur = some c → c.rid ≠ rid) →
      noHeaderFor rid ls = true →
      lookupAL rid (finishParse (ls.foldl parseStep (m, cur))) = lookupAL rid m := by
  intro ls
  induction ls with
  | nil =>
    intro m cur hcur _
    match cur with
    | none => simp [finishParse, flushCur]
    | some c =>
      simp only [List.foldl_nil, finishParse, flushCur]
      exact lookupAL_upsert_ne _ _ _ _ (Ne.symm (hcur c rfl))
  | cons l ls ih =>
    intro m cur hcur hno
    rw [noHeaderFor_cons, Bool.and_eq_true] at hno
    obtain ⟨hhead, hno'⟩ := hno
    rw [List.foldl_cons]
    cases hh : matchReqHeader l with
    | some p =>
      obtain ⟨a, t⟩ := p
      have ha : a ≠ rid := by
        rw [hh] at hhead
        simpa using hhead
      have step : parseStep (m, cur) l =
          (flushCur cur m, some ⟨a, pstrip t, unknownTxt, unknownTxt⟩) := by
        simp [parseStep, hh]
      rw [step]
      rw [ih (flushCur cur m) _ (fun c hc => by cases hc; exact ha) hno']
      match cur with
      | none => simp [flushCur]
      | some c =>
        simp only [flushCur]
        exact lookupAL_upsert_ne _ _ _ _ (Ne.symm (hcur c rfl))
    | none =>
      match cur with
      | none =>
        have step : parseStep (m, (none : Option CurReq)) l = (m, none) := by
          simp [parseStep, hh]
        rw [step]
        exact ih m none (by intro c hc; cases hc) hno'
      | some c =>
        have hrid : c.rid ≠ rid := hcur c rfl
        cases hp : matchMetaLine priorityKey l with
        | some v =>
          have step : parseStep (m, some c) l = (m, some { c with priority := pstrip v }) := by
            simp [parseStep, hh, hp]
          rw [step]
          exact ih m _ (fun c' hc' => by cases hc'; exact hrid) hno'
        | none =>
          cases hs : matchMetaLine implStatusKey l with
          | some v =>
            have step : parseStep (m, some c) l =
                (m, some { c with implStatus := pstrip v }) := by
              simp [parseStep, hh, hp, hs]
            rw [step]
            exact ih m _ (fun c' hc' => by cases hc'; exact hrid) hno'
          | none =>
            have step : parseStep (m, some c) l = (m, some c) := by
              simp [parseStep, hh, hp, hs]
            rw [step]
            exact ih m (some c) hcur hno'

theorem lookup_parse_indep (rid : Line) :
    ∀ (ls : List Line) (c : CurReq) (m1 m2 : AList),
      c.rid = rid → noHeaderFor rid ls = true →
      lookupAL rid (finishParse (ls.foldl parseStep (m1, some c))) =
        lookupAL rid (finishParse (ls.foldl parseStep (m2, some c))) := by
  intro ls
  induction ls with
  | nil =>
    intro c m1 m2 hc _
    simp only [List.foldl_nil, finishParse, flushCur, hc]
    rw [lookupAL_upsert_self, lookupAL_upsert_self]
  | cons l ls ih =>
    intro c m1 m2 hc hno
    rw [noHeaderFor_cons, Bool.and_eq_true] at hno
    obtain ⟨hhead, hno'⟩ := hno
    rw [List.foldl_cons, List.foldl_cons]
    cases hh : matchReqHeader l with
    | some p =>
      obtain ⟨a, t⟩ := p
      have ha : a ≠ rid := by
        rw [hh] at hhead
        simpa using hhead
      have step : ∀ m : AList, parseStep (m, some c) l =
          (upsert c.rid (buildDescription c) m, some ⟨a, pstrip t, unknownTxt, unknownTxt⟩) := by
        intro m
        simp [parseStep, hh, flushCur]
      rw [step m1, step m2]
      rw [lookup_parse_no_header rid ls _ _ (fun c' hc' => by cases hc'; exact ha) hno']
      rw [lookup_parse_no_header rid ls _ _ (fun c' hc' => by cases hc'; exact ha) hno']
      rw [hc, lookupAL_upsert_self, lookupAL_upsert_self]
    | none =>
      cases hp : matchMetaLine priorityKey l with
      | some v =>
        have step : ∀ m : AList, parseStep (m, some c) l =
            (m, some { c with priority := pstrip v }) := by
          intro m
          simp [parseStep, hh, hp]
        rw [step m1, step m2]
        exact ih _ m1 m2 hc hno'
      | none =>
        cases hs : matchMetaLine implStatusKey l with
        | some v =>
          have step : ∀ m : AList, parseStep (m, some c) l =
              (m, some { c with implStatus := pstrip v }) := by
            intro m
            simp [parseStep, hh, hp, hs]
          rw [step m1, step m2]
          exact ih _ m1 m2 hc hno'
        | none =>
          have step : ∀ m : AList, parseStep (m, some c) l = (m, some c) := by
            intro m
            simp [parseStep, hh, hp, hs]
          rw [step m1, step m2]
          exact ih _ m1 m2 hc hno'

/--
C3: when the same requirement identifier starts a block more than once, the
parser binds that identifier to the data accumulated from the last such block
only: the value looked up after parsing `l1 ++ h :: l2`, where `h` is the last
header line for the identifier (no header for it occurs in `l2`), is the same
as if the document had started at `h`.
-/
theorem claim3_last_write_wins (l1 : List Line) (h : Line) (l2 : List Line)
    (rid text : Line) (hh : matchReqHeader h = some (rid, text))
    (hno : noHeaderFor rid l2 = true) :
    lookupAL rid (parseLines (l1 ++ h :: l2)) = lookupAL rid (parseLines (h :: l2)) := by
  unfold parseLines
  rw [List.foldl_append]
  rw [List.foldl_cons, List.foldl_cons]
  have step1 : parseStep (l1.foldl parseStep ([], none)) h =
      ((l1.foldl parseStep ([], none)).2.elim (l1.foldl parseStep ([], none)).1
         (fun c => upsert c.rid (buildDescription c) (l1.foldl parseStep ([], none)).1),
       some ⟨rid, pstrip text, unknownTxt, unknownTxt⟩) := by
    cases hst : l1.foldl parseStep ([], none) with
    | mk m1 c1 =>
      cases c1 with
      | none => simp [parseStep, hh, flushCur]
      | some c => simp [parseStep, hh, flushCur]
  have step2 : parseStep (([], none) : AList × Option CurReq) h =
      ([], some ⟨rid, pstrip text, unknownTxt, unknownTxt⟩) := by
    simp [parseStep, hh, flushCur]
  rw [step1, step2]
  exact lookup_parse_indep rid l2 _ _ _ rfl hno

/--
C3 witness: a concrete document where `TOR-1.1` starts two blocks; the parsed
entry comes from the second block only.
-/
theorem claim3_last_write_wins_witness :
    (matchReqHeader "- **TOR-1.1**: second".data = some ("TOR-1.1".data, "second".data)
      ∧ noHeaderFor "TOR-1.1".data ["  - **Priority**: High".data] = true)
    ∧ lookupAL "TOR-1.1".data
        (parseLines (["- **TOR-1.1**: first".data]
          ++ "- **TOR-1.1**: second".data :: ["  - **Priority**: High".data]))
      = lookupAL "TOR-1.1".data
          (parseLines ("- **TOR-1.1**: second".data :: ["  - **Priority**: High".data])) :=
  ⟨⟨by decide, by decide⟩,
   claim3_last_write_wins ["- **TOR-1.1**: first".data] "- **TOR-1.1**: second".data
     ["  - **Priority**: High".data] "TOR-1.1".data "second".data (by decide) (by decide)⟩

/-! ## C7: coverage percentages and division by zero -/

/--
C7: each coverage percentage — overall, implemented-only, and every rendered
priority bucket of either breakdown — equals covered divided by total times
100 when the total is positive, and is exactly 0 when the total is 0; in
particular an empty requirement set yields 0 and never a division error.
-/
theorem claim7_percentages (reqs : AList) (tests : RTMap) :
    (total_requirements reqs = 0 → coverage_percentage reqs tests = 0)
    ∧ (0 < total_requirements reqs →
        coverage_percentage reqs tests
          = (covered_requirements reqs tests : ℚ) / (total_requirements reqs : ℚ) * 100)
    ∧ (total_implemented reqs = 0 → coverage_implemented_percentage reqs tests = 0)
    ∧ (0 < total_implemented reqs →
        coverage_implemented_percentage reqs tests
          = (covered_implemented reqs tests : ℚ) / (total_implemented reqs : ℚ) * 100)
    ∧ (∀ p cov tot q,
        (p, cov, tot, q) ∈ prioritySummaryRows (priority_stats_all reqs tests)
          ∨ (p, cov, tot, q) ∈ prioritySummaryRows (priority_stats_impl reqs tests) →
        (tot = 0 → q = 0) ∧ (0 < tot → q = (cov : ℚ) / (tot : ℚ) * 100)) := by
  refine ⟨?_, ?_, ?_, ?_, ?_⟩
  · intro h
    simp [coverage_percentage, coveragePct, h]
  · intro h
    simp [coverage_percentage, coveragePct, h]
  · intro h
    simp [coverage_implemented_percentage, coveragePct, h]
  · intro h
    simp [coverage_implemented_percentage, coveragePct, h]
  · intro p cov tot q hmem
    have hq : q = coveragePct cov tot := by
      rcases hmem with hmem | hmem <;>
      · rw [prioritySummaryRows, List.mem_filterMap] at hmem
        obtain ⟨a, _, ha⟩ := hmem
        rw [Option.map_eq_some'] at ha
        obtain ⟨tc, _, htc⟩ := ha
        simp only [Prod.mk.injEq] at htc
        obtain ⟨_, h2, h3, h4⟩ := htc
        rw [← h4, h3, h2]
    subst hq
    constructor
    · intro h
      simp [coveragePct, h]
    · intro h
      simp [coveragePct, h]

/-- C7 witness: the empty requirement set yields percentage 0. -/
theorem claim7_percentages_witness :
    total_requirements [] = 0 ∧ coverage_percentage [] [] = 0 :=
  ⟨rfl, (claim7_percentages [] []).1 rfl⟩

/-! ## C9: process exit codes -/

/--
C9: the modelled process exits with 0 exactly when the rendering dependency is
available, the parse produced at least one requirement, and both output writes
succeed; in every other case (the three enumerated failures) it exits 1.
-/
theorem claim9_exit_codes (md : Bool) (doc : Line) (w1 w2 : Bool) :
    (mainExitCode md doc w1 w2 = 0 ↔
      (md = true ∧ parse_requirements doc ≠ [] ∧ w1 = true ∧ w2 = true))
    ∧ (mainExitCode md doc w1 w2 = 0 ∨ mainExitCode md doc w1 w2 = 1) := by
  constructor
  · cases md with
    | false => simp [mainExitCode]
    | true =>
      by_cases hd : (parse_requirements doc).isEmpty
      · have : parse_requirements doc = [] := List.isEmpty_iff.mp hd
        simp [mainExitCode, hd, this]
      · have : parse_requirements doc ≠ [] := fun h => hd (List.isEmpty_iff.mpr h)
        cases w1 <;> cases w2 <;> simp [mainExitCode, hd, this]
  · unfold mainExitCode
    split_ifs <;> simp

/-! ## C2: uncovered requirements get exactly one sentinel row -/

theorem rowsFor_reqId (tests : RTMap) (kv : Line × Line) (r : Row)
    (hr : r ∈ rowsFor tests kv) : r.reqId = kv.1 := by
  unfold rowsFor at hr
  cases hl : lookupRT kv.1 tests with
  | some ts =>
    rw [hl] at hr
    simp only [List.mem_map] at hr
    obtain ⟨ti, _, hti⟩ := hr
    rw [← hti]
  | none =>
    rw [hl] at hr
    simp only [List.mem_singleton] at hr
    rw [hr]

theorem rowsFor_not_covered (tests : RTMap) (kv : Line × Line)
    (h : isKeyRT kv.1 tests = false) :
    rowsFor tests kv =
      [⟨kv.1, extractPriority kv.2, extractImplStatus kv.2,
        escapePipes (cleanText kv.2), noCoverageText, noCoverageText⟩] := by
  unfold rowsFor
  cases hl : lookupRT kv.1 tests with
  | some ts =>
    rw [isKeyRT, hl] at h
    simp at h
  | none => rfl

theorem filter_flatMap_rows_nil (tests : RTMap) (rid : Line) :
    ∀ L : AList, rid ∉ L.map Prod.fst →
      (L.flatMap (rowsFor tests)).filter (fun r => decide (r.reqId = rid)) = [] := by
  intro L
  induction L with
  | nil => intro _; rfl
  | cons kv L ih =>
    intro hmem
    simp only [List.map_cons, List.mem_cons, not_or] at hmem
    rw [List.flatMap_cons, List.filter_append]
    rw [List.filter_eq_nil_iff.mpr, ih hmem.2, List.append_nil]
    intro r hr
    have := rowsFor_reqId tests kv r hr
    simp only [decide_eq_true_eq, this]
    exact fun hc => hmem.1 hc.symm

theorem filter_flatMap_rows_unique (tests : RTMap) (rid : Line) :
    ∀ L : AList, (L.map Prod.fst).Nodup → rid ∈ L.map Prod.fst →
      isKeyRT rid tests = false →
      ∃ d, (L.flatMap (rowsFor tests)).filter (fun r => decide (r.reqId = rid)) =
        [⟨rid, extractPriority d, extractImplStatus d, escapePipes (cleanText d),
          noCoverageText, noCoverageText⟩] := by
  intro L
  induction L with
  | nil => intro _ hmem; simp at hmem
  | cons kv L ih =>
    intro hnd hmem hnk
    rw [List.map_cons, List.nodup_cons] at hnd
    rw [List.flatMap_cons, List.filter_append]
    by_cases hk : kv.1 = rid
    · refine ⟨kv.2, ?_⟩
      rw [filter_flatMap_rows_nil tests rid L (hk ▸ hnd.1), List.append_nil]
      rw [rowsFor_not_covered tests kv (hk ▸ hnk)]
      simp [hk]
    · have hmem' : rid ∈ L.map Prod.fst := by
        rw [List.map_cons, List.mem_cons] at hmem
        rcases hmem with hmem | hmem
        · exact absurd hmem.symm hk
        · exact hmem
      obtain ⟨d, hd⟩ := ih hnd.2 hmem' hnk
      refine ⟨d, ?_⟩
      rw [hd]
      rw [List.filter_eq_nil_iff.mpr, List.nil_append]
      intro r hr
      have := rowsFor_reqId tests kv r hr
      simp only [decide_eq_true_eq, this]
      exact hk

theorem isKeyAL_iff_mem (k : Line) : ∀ m : AList, isKeyAL k m = true ↔ k ∈ m.map Prod.fst := by
  intro m
  induction m with
  | nil => simp [isKeyAL, lookupAL]
  | cons kv rest ih =>
    obtain ⟨a, b⟩ := kv
    simp only [List.map_cons, List.mem_cons]
    by_cases ha : a = k
    · subst ha
      simp [isKeyAL, lookupAL]
    · have h1 : isKeyAL k ((a, b) :: rest) = isKeyAL k rest := by
        simp [isKeyAL, lookupAL, ha]
      rw [h1, ih]
      constructor
      · exact fun h => Or.inr h
      · rintro (h | h)
        · exact absurd h.symm ha
        · exact h

/--
C2: a parsed requirement whose identifier is not a key of the scanner output
contributes exactly one row to the trace matrix, and that row carries the
fixed no-coverage sentinel in both the test-file and the test-case columns
(so in particular no such requirement is omitted).
-/
theorem claim2_sentinel_row (reqs : AList) (tests : RTMap) (rid : Line)
    (hnd : (reqs.map Prod.fst).Nodup)
    (hk : isKeyAL rid reqs = true)
    (hnk : isKeyRT rid tests = false) :
    ∃ d, (matrixRows reqs tests).filter (fun r => decide (r.reqId = rid)) =
      [⟨rid, extractPriority d, extractImplStatus d, escapePipes (cleanText d),
        noCoverageText, noCoverageText⟩] := by
  unfold matrixRows
  have hperm := List.mergeSort_perm reqs pairLe
  apply filter_flatMap_rows_unique tests rid _ _ _ hnk
  · exact (List.Perm.nodup_iff (List.Perm.map Prod.fst hperm)).mpr hnd
  · exact (List.Perm.mem_iff (List.Perm.map Prod.fst hperm)).mpr
      ((isKeyAL_iff_mem rid reqs).mp hk)

/-- C2 witness: a concrete parsed requirement with no matching tests. -/
theorem claim2_sentinel_row_witness :
    (((parseLines ["- **TOR-7.7**: Handles resets".data]).map Prod.fst).Nodup
      ∧ isKeyAL "TOR-7.7".data (parseLines ["- **TOR-7.7**: Handles resets".data]) = true
      ∧ isKeyRT "TOR-7.7".data [] = false)
    ∧ ∃ d, (matrixRows (parseLines ["- **TOR-7.7**: Handles resets".data]) []).filter
        (fun r => decide (r.reqId = "TOR-7.7".data)) =
      [⟨"TOR-7.7".data, extractPriority d, extractImplStatus d, escapePipes (cleanText d),
        noCoverageText, noCoverageText⟩] :=
  ⟨⟨by decide, by decide, by decide⟩,
   claim2_sentinel_row (parseLines ["- **TOR-7.7**: Handles resets".data]) [] "TOR-7.7".data
     (by decide) (by decide) (by decide)⟩

/-! ## Scanner lemmas for C4 and C5 -/

theorem scanLineStep_snd (p : Line) (st : RTMap × Option Line) (l : Line) :
    (scanLineStep p st l).2 = stepMethod st.2 l := by
  cases hg : searchReqComment l <;> cases hc : stepMethod st.2 l <;>
    simp [scanLineStep, hg, hc]

theorem scan_foldl_cur (p : Line) :
    ∀ (ls : List Line) (st : RTMap × Option Line),
      (ls.foldl (scanLineStep p) st).2 = curAfter st.2 ls := by
  intro ls
  induction ls with
  | nil => intro st; rfl
  | cons l ls ih =>
    intro st
    rw [List.foldl_cons, ih]
    simp only [curAfter, List.foldl_cons]
    rw [scanLineStep_snd]

theorem refsOf_cons (k a : Line) (ts : List (Line × Line)) (m : RTMap) :
    refsOf k ((a, ts) :: m) = if a = k then ts else refsOf k m := by
  by_cases ha : a = k <;> simp [refsOf, lookupRT, ha]

theorem refsOf_addRef_mono (rid k : Line) (ti ti' : Line × Line) :
    ∀ m : RTMap, ti ∈ refsOf k m → ti ∈ refsOf k (addRef rid ti' m) := by
  intro m
  induction m with
  | nil => simp [refsOf, lookupRT]
  | cons e m ih =>
    obtain ⟨a, ts⟩ := e
    intro hmem
    rw [refsOf_cons] at hmem
    by_cases har : a = rid
    · subst har
      by_cases hti : ti' ∈ ts
      · simpa [addRef, refsOf_cons, hti] using hmem
      · by_cases hak : a = k
        · rw [addRef, if_pos rfl, refsOf_cons, if_pos hak, if_neg hti]
          rw [if_pos hak] at hmem
          exact List.mem_append_left _ hmem
        · rw [addRef, if_pos rfl, refsOf_cons, if_neg hak]
          rw [if_neg hak] at hmem
          exact hmem
    · rw [addRef, if_neg har, refsOf_cons]
      by_cases hak : a = k
      · rw [if_pos hak]
        rw [if_pos hak] at hmem
        exact hmem
      · rw [if_neg hak]
        rw [if_neg hak] at hmem
        exact ih hmem

theorem refsOf_addRef_self (rid : Line) (ti : Line × Line) :
    ∀ m : RTMap, ti ∈ refsOf rid (addRef rid ti m) := by
  intro m
  induction m with
  | nil => simp [addRef, refsOf, lookupRT]
  | cons e m ih =>
    obtain ⟨a, ts⟩ := e
    by_cases har : a = rid
    · subst har
      by_cases hti : ti ∈ ts
      · simp [addRef, refsOf_cons, hti]
      · simp [addRef, refsOf_cons, hti]
    · rw [addRef, if_neg har, refsOf_cons, if_neg har]
      exact ih

theorem isKeyRT_of_refsOf_mem (k : Line) (ti : Line × Line) (m : RTMap)
    (h : ti ∈ refsOf k m) : isKeyRT k m = true := by
  rw [isKeyRT]
  cases hl : lookupRT k m with
  | some ts => rfl
  | none =>
    rw [refsOf, hl] at h
    simp at h

theorem foldl_addRef_mono (ti : Line × Line) :
    ∀ (ids : List Line) (m : RTMap) (k : Line) (t' : Line × Line),
      t' ∈ refsOf k m → t' ∈ refsOf k (ids.foldl (fun m r => addRef r ti m) m) := by
  intro ids
  induction ids with
  | nil => intro m k t' h; exact h
  | cons i ids ih =>
    intro m k t' h
    rw [List.foldl_cons]
    exact ih _ _ _ (refsOf_addRef_mono i k t' ti m h)

theorem foldl_addRef_mem (ti : Line × Line) :
    ∀ (ids : List Line) (m : RTMap) (rid : Line), rid ∈ ids →
      ti ∈ refsOf rid (ids.foldl (fun m r => addRef r ti m) m) := by
  intro ids
  induction ids with
  | nil => intro m rid h; simp at h
  | cons i ids ih =>
    intro m rid h
    rw [List.foldl_cons]
    rcases List.mem_cons.mp h with h | h
    · subst h
      exact foldl_addRef_mono ti ids _ _ _ (refsOf_addRef_self rid ti m)
    · exact ih _ _ h

theorem scanLineStep_refs_mono (p : Line) (st : RTMap × Option Line) (l : Line)
    (k : Line) (t' : Line × Line) (h : t' ∈ refsOf k st.1) :
    t' ∈ refsOf k (scanLineStep p st l).1 := by
  cases hg : searchReqComment l with
  | none => simpa [scanLineStep, hg] using h
  | some g =>
    cases hc : stepMethod st.2 l with
    | none => simpa [scanLineStep, hg, hc] using h
    | some meth =>
      simp only [scanLineStep, hg, hc]
      exact foldl_addRef_mono (p, meth) _ _ _ _ h

theorem scan_foldl_refs_mono (p : Line) :
    ∀ (ls : List Line) (st : RTMap × Option Line) (k : Line) (t' : Line × Line),
      t' ∈ refsOf k st.1 → t' ∈ refsOf k ((ls.foldl (scanLineStep p) st)).1 := by
  intro ls
  induction ls with
  | nil => intro st k t' h; exact h
  | cons l ls ih =>
    intro st k t' h
    rw [List.foldl_cons]
    exact ih _ _ _ (scanLineStep_refs_mono p st l k t' h)

theorem scan_files_refs_mono :
    ∀ (files : List (Line × List Line)) (m : RTMap) (k : Line) (t' : Line × Line),
      t' ∈ refsOf k m → t' ∈ refsOf k (files.foldl scanFile m) := by
  intro files
  induction files with
  | nil => intro m k t' h; exact h
  | cons f files ih =>
    intro m k t' h
    rw [List.foldl_cons]
    exact ih _ _ _ (scan_foldl_refs_mono f.1 f.2 (m, none) k t' h)

theorem scanLineStep_adds (p : Line) (st : RTMap × Option Line) (l g meth : Line)
    (hg : searchReqComment l = some g)
    (hm : stepMethod st.2 l = some meth) :
    ∀ rid ∈ (g.splitOn ',').map pstrip,
      (p, meth) ∈ refsOf rid ((scanLineStep p st l).1) := by
  intro rid hrid
  simp only [scanLineStep, hg, hm]
  exact foldl_addRef_mem (p, meth) _ _ _ hrid

/--
Shared lemma for C4/C5: when a scanned file contains a line carrying a
requirement-reference comment with captured group `g`, and the current test
method at that line is `meth`, then for every identifier of the
comma-separated list the pair (relative path, method) is recorded in the
final scanner output.
-/
theorem scan_files_records (files1 files2 : List (Line × List Line))
    (relPath : Line) (pre : List Line) (line : Line) (post : List Line)
    (g meth : Line)
    (hm : curAfter none (pre ++ [line]) = some meth)
    (hg : searchReqComment line = some g) :
    ∀ rid ∈ (g.splitOn ',').map pstrip,
      (relPath, meth) ∈ refsOf rid
        (scan_test_files (files1 ++ (relPath, pre ++ line :: post) :: files2)) := by
  intro rid hrid
  unfold scan_test_files
  rw [List.foldl_append, List.foldl_cons]
  apply scan_files_refs_mono files2
  show (relPath, meth) ∈ refsOf rid (scanFile (files1.foldl scanFile []) (relPath, pre ++ line :: post))
  unfold scanFile
  rw [List.foldl_append, List.foldl_cons]
  apply scan_foldl_refs_mono relPath post
  apply scanLineStep_adds relPath _ line g meth hg _ rid hrid
  rw [scan_foldl_cur]
  rw [curAfter, List.foldl_append] at hm
  exact hm

/--
C4: a scanned line whose requirement-reference comment names several
comma-separated identifiers, occurring with a current test method in scope,
records one TestReference per identifier, each binding that identifier to the
same (relative file path, test method) pair in the scanner output.
-/
theorem claim4_multi_id_comment (files1 files2 : List (Line × List Line))
    (relPath : Line) (pre : List Line) (line : Line) (post : List Line)
    (g meth : Line)
    (hm : curAfter none (pre ++ [line]) = some meth)
    (hg : searchReqComment line = some g) :
    ∀ rid ∈ (g.splitOn ',').map pstrip,
      (relPath, meth) ∈ refsOf rid
        (scan_test_files (files1 ++ (relPath, pre ++ line :: post) :: files2)) :=
  scan_files_records files1 files2 relPath pre line post g meth hm hg

/-- C4 witness: `// TOR-2.1, TOR-2.2` after `public Task MyTest(`. -/
theorem claim4_multi_id_comment_witness :
    (curAfter none (["public Task MyTest(".data] ++ ["// TOR-2.1, TOR-2.2".data])
        = some "MyTest".data
      ∧ searchReqComment "// TOR-2.1, TOR-2.2".data = some "TOR-2.1, TOR-2.2".data
      ∧ "TOR-2.2".data ∈ ("TOR-2.1, TOR-2.2".data.splitOn ',').map pstrip)
    ∧ ("test/A.cs".data, "MyTest".data) ∈ refsOf "TOR-2.2".data
        (scan_test_files ([] ++ ("test/A.cs".data,
          ["public Task MyTest(".data] ++ "// TOR-2.1, TOR-2.2".data :: []) :: [])) :=
  ⟨⟨by decide, by decide, by decide⟩,
   claim4_multi_id_comment [] [] "test/A.cs".data ["public Task MyTest(".data]
     "// TOR-2.1, TOR-2.2".data [] "TOR-2.1, TOR-2.2".data "MyTest".data
     (by decide) (by decide) "TOR-2.2".data (by decide)⟩

/-! ## C5: identifiers unknown to the parser get no matrix row -/

theorem matrixRows_reqId_isKey (reqs : AList) (tests : RTMap) (r : Row)
    (hr : r ∈ matrixRows reqs tests) : isKeyAL r.reqId reqs = true := by
  unfold matrixRows at hr
  rw [List.mem_flatMap] at hr
  obtain ⟨kv, hkv, hrkv⟩ := hr
  rw [rowsFor_reqId tests kv r hrkv]
  rw [isKeyAL_iff_mem]
  exact List.mem_map_of_mem Prod.fst
    ((List.Perm.mem_iff (List.mergeSort_perm reqs pairLe)).mp hkv)

/--
C5: an identifier referenced in a scanned test file (after a test-method
declaration) but absent from the parsed requirements is a key of the scanner
output, yet contributes no row to the rendered trace matrix, because the
rendering iterates over the parsed requirements only.
-/
theorem claim5_unreferenced_id (reqs : AList) (files1 files2 : List (Line × List Line))
    (relPath : Line) (pre : List Line) (line : Line) (post : List Line)
    (g meth rid : Line)
    (hm : curAfter none (pre ++ [line]) = some meth)
    (hg : searchReqComment line = some g)
    (hrid : rid ∈ (g.splitOn ',').map pstrip)
    (hnk : isKeyAL rid reqs = false) :
    isKeyRT rid (scan_test_files (files1 ++ (relPath, pre ++ line :: post) :: files2)) = true
    ∧ ∀ r ∈ matrixRows reqs
        (scan_test_files (files1 ++ (relPath, pre ++ line :: post) :: files2)),
        r.reqId ≠ rid := by
  constructor
  · exact isKeyRT_of_refsOf_mem rid (relPath, meth) _
      (scan_files_records files1 files2 relPath pre line post g meth hm hg rid hrid)
  · intro r hr hcontra
    have := matrixRows_reqId_isKey reqs _ r hr
    rw [hcontra, hnk] at this
    cases this

/-- C5 witness: `TOR-9.9` is referenced in a test but not parsed. -/
theorem claim5_unreferenced_id_witness :
    (curAfter none (["public Task MyTest(".data] ++ ["// TOR-9.9".data]) = some "MyTest".data
      ∧ searchReqComment "// TOR-9.9".data = some "TOR-9.9".data
      ∧ "TOR-9.9".data ∈ ("TOR-9.9".data.splitOn ',').map pstrip
      ∧ isKeyAL "TOR-9.9".data (parseLines ["- **TOR-1.1**: Must log errors".data]) = false)
    ∧ (isKeyRT "TOR-9.9".data (scan_test_files ([] ++ ("test/A.cs".data,
          ["public Task MyTest(".data] ++ "// TOR-9.9".data :: []) :: [])) = true
      ∧ ∀ r ∈ matrixRows (parseLines ["- **TOR-1.1**: Must log errors".data])
          (scan_test_files ([] ++ ("test/A.cs".data,
            ["public Task MyTest(".data] ++ "// TOR-9.9".data :: []) :: [])),
          r.reqId ≠ "TOR-9.9".data) :=
  ⟨⟨by decide, by decide, by decide, by decide⟩,
   claim5_unreferenced_id (parseLines ["- **TOR-1.1**: Must log errors".data]) [] []
     "test/A.cs".data ["public Task MyTest(".data] "// TOR-9.9".data []
     "TOR-9.9".data "MyTest".data "TOR-9.9".data
     (by decide) (by decide) (by decide) (by decide)⟩

/-! ## Substring lemmas for C1 -/

theorem expectLit_append (p r : Line) : expectLit p (p ++ r) = some r := by
  induction p with
  | nil => rfl
  | cons c p ih => simp [expectLit, ih]

theorem litHere_self_append (pat B : Line) : litHere pat (pat ++ B) = true := by
  simp [litHere, expectLit_append]

theorem containsSub_of_litHere (pat s : Line) (h : litHere pat s = true) :
    containsSub pat s = true := by
  cases s with
  | nil => simpa [containsSub] using h
  | cons c rest => simp [containsSub, h]

theorem containsSub_cons_of (pat : Line) (c : Char) (s : Line)
    (h : containsSub pat s = true) : containsSub pat (c :: s) = true := by
  simp [containsSub, h]

theorem containsSub_append_left :
    ∀ (A pat s : Line), containsSub pat s = true → containsSub pat (A ++ s) = true := by
  intro A
  induction A with
  | nil => intro pat s h; exact h
  | cons a A ih =>
    intro pat s h
    exact containsSub_cons_of pat a (A ++ s) (ih pat s h)

theorem containsSub_parts (A pat B : Line) : containsSub pat (A ++ (pat ++ B)) = true :=
  containsSub_append_left A pat (pat ++ B)
    (containsSub_of_litHere pat (pat ++ B) (litHere_self_append pat B))

theorem containsSub_dropWhile_sp (p0 : Char) (pt : Line) (hp0 : isPySpace p0 = false) :
    ∀ s : Line, containsSub (p0 :: pt) s = true →
      containsSub (p0 :: pt) (s.dropWhile isPySpace) = true := by
  intro s
  induction s with
  | nil => intro h; simpa using h
  | cons c s ih =>
    intro h
    cases hsp : isPySpace c with
    | false =>
      rw [List.dropWhile_cons, hsp]
      simpa using h
    | true =>
      rw [List.dropWhile_cons, hsp]
      simp only [if_true]
      apply ih
      have hlit : litHere (p0 :: pt) (c :: s) = false := by
        simp only [litHere, expectLit]
        by_cases hc : p0 = c
        · subst hc
          rw [hp0] at hsp
          cases hsp
        · simp [hc]
      simp only [containsSub, hlit, Bool.false_or] at h
      exact h

/-- Substring occurrences survive a containment split on the forward side. -/
theorem containsSub_iff_parts (pat : Line) :
    ∀ s : Line, containsSub pat s = true ↔ ∃ A B, s = A ++ (pat ++ B) := by
  intro s
  induction s with
  | nil =>
    simp only [containsSub, litHere]
    constructor
    · intro h
      cases pat with
      | nil => exact ⟨[], [], rfl⟩
      | cons c cs => simp [expectLit] at h
    · rintro ⟨A, B, hAB⟩
      have h1 := List.append_eq_nil.mp hAB.symm
      have h2 := List.append_eq_nil.mp h1.2
      simp [h2.1, expectLit]
  | cons c s ih =>
    simp only [containsSub, Bool.or_eq_true]
    constructor
    · rintro (h | h)
      · rw [litHere] at h
        cases hp : expectLit pat (c :: s) with
        | none => rw [hp] at h; cases h
        | some r =>
          refine ⟨[], r, ?_⟩
          have key : ∀ (p t : Line) (r : Line), expectLit p t = some r → t = p ++ r := by
            intro p
            induction p with
            | nil => intro t r hr; cases hr; rfl
            | cons a p ihp =>
              intro t r hr
              cases t with
              | nil => cases hr
              | cons b t =>
                simp only [expectLit] at hr
                by_cases hab : a = b
                · rw [if_pos hab] at hr
                  rw [← hab, List.cons_append]
                  rw [ihp t r hr]
                · rw [if_neg hab] at hr
                  cases hr
          simpa using key pat (c :: s) r hp
      · obtain ⟨A, B, hAB⟩ := ih.mp h
        exact ⟨c :: A, B, by rw [hAB]; rfl⟩
    · rintro ⟨A, B, hAB⟩
      cases A with
      | nil =>
        left
        simp only [List.nil_append] at hAB
        rw [hAB]
        exact litHere_self_append pat B
      | cons a A =>
        right
        apply ih.mpr
        refine ⟨A, B, ?_⟩
        simpa using congrArg List.tail hAB

theorem containsSub_rstrip (pat : Line) (p0 : Char) (pt : Line)
    (hpat : pat.reverse = p0 :: pt) (hp0 : isPySpace p0 = false) (A B : Line) :
    containsSub pat (((A ++ (pat ++ B)).reverse.dropWhile isPySpace).reverse) = true := by
  rw [List.reverse_append, List.reverse_append]
  rw [List.append_assoc]
  rw [List.dropWhile_append]
  have hrev : pat.reverse.dropWhile isPySpace = pat.reverse := by
    rw [hpat, List.dropWhile_cons, hp0]
    simp
  by_cases hBE : (B.reverse.dropWhile isPySpace).isEmpty = true
  · rw [if_pos hBE]
    rw [List.dropWhile_append, hrev, hpat]
    simp only [List.isEmpty_cons, Bool.false_eq_true, if_false]
    rw [← hpat, ← List.reverse_append, List.reverse_reverse]
    have h0 : containsSub pat (A ++ (pat ++ [])) = true := containsSub_parts A pat []
    simpa using h0
  · rw [if_neg hBE]
    rw [List.reverse_append, List.reverse_append, List.reverse_reverse,
      List.reverse_reverse]
    rw [List.append_assoc]
    exact containsSub_parts A pat _

/-- Occurrences with non-whitespace first and last characters survive `strip()`. -/
theorem containsSub_pstrip (pat : Line) (p0 q0 : Char) (pt qt : Line)
    (hhead : pat = p0 :: pt) (hp0 : isPySpace p0 = false)
    (hlast : pat.reverse = q0 :: qt) (hq0 : isPySpace q0 = false)
    (s : Line) (h : containsSub pat s = true) :
    containsSub pat (pstrip s) = true := by
  rw [pstrip]
  have h1 : containsSub pat (s.dropWhile isPySpace) = true := by
    rw [hhead] at h ⊢
    exact containsSub_dropWhile_sp p0 pt hp0 s h
  obtain ⟨A, B, hAB⟩ := (containsSub_iff_parts pat _).mp h1
  rw [hAB]
  exact containsSub_rstrip pat q0 qt hlast hq0 A B

/-! ## C1: membership in the implemented subset is a substring test -/

/--
C1 counterexample: a requirement whose Impl Status value is
`"Implemented (partially)"` — not exactly `"Implemented"` — is nevertheless
counted in the implemented subset, because the code tests substring
containment of `"Impl Status**: Implemented"` in the combined description.
-/
theorem claim1_counterexample :
    lookupAL "TOR-1.1".data
        (parseLines ["- **TOR-1.1**: Text".data,
                     "  - **Impl Status**: Implemented (partially)".data])
      = some "Text - **Priority**: Unknown - **Impl Status**: Implemented (partially)".data
    ∧ total_implemented
        (parseLines ["- **TOR-1.1**: Text".data,
                     "  - **Impl Status**: Implemented (partially)".data]) = 1
    ∧ extractImplStatus
        "Text - **Priority**: Unknown - **Impl Status**: Implemented (partially)".data
      = "Implemented (partially)".data
    ∧ "Implemented (partially)".data ≠ "Implemented".data := by
  refine ⟨by decide, by decide, by decide, by decide⟩

/--
C1 amended: the implemented-only statistics are computed over the set of
requirements whose combined description contains the substring
`"Impl Status**: Implemented"` (they count covered exactly those of these
whose identifier is a key of the scanner output); in particular every
requirement whose Impl Status value merely starts with `"Implemented"` is
included, not only those whose value is exactly `"Implemented"`.
-/
theorem claim1_amended (reqs : AList) (tests : RTMap) :
    total_implemented reqs = reqs.countP (fun kv => containsSub implNeedle kv.2)
    ∧ covered_implemented reqs tests
        = reqs.countP (fun kv => isKeyRT kv.1 tests && containsSub implNeedle kv.2)
    ∧ ∀ c : CurReq, (∃ rest, c.implStatus = "Implemented".data ++ rest) →
        containsSub implNeedle (buildDescription c) = true := by
  refine ⟨?_, ?_, ?_⟩
  · rw [total_implemented, implemented_reqs, List.countP_eq_length_filter]
  · rw [covered_implemented, implemented_reqs, List.filter_filter,
      List.countP_eq_length_filter]
  · rintro c ⟨rest, hrest⟩
    rw [buildDescription, hrest]
    have hconcrete : " - **Impl Status**: ".data ++ "Implemented".data
        = " - **".data ++ implNeedle := by decide
    have hX : c.text ++ " - **Priority**: ".data ++ c.priority
          ++ " - **Impl Status**: ".data ++ ("Implemented".data ++ rest)
        = (c.text ++ " - **Priority**: ".data ++ c.priority ++ " - **".data)
          ++ (implNeedle ++ rest) := by
      simp only [List.append_assoc]
      rw [← List.append_assoc (" - **Impl Status**: ".data), hconcrete]
      simp [List.append_assoc]
    rw [hX]
    apply containsSub_pstrip implNeedle 'I' 'd' implNeedle.tail implNeedle.reverse.tail
      (by decide) (by decide) (by decide) (by decide)
    exact containsSub_parts _ implNeedle rest

/-- C1 amended witness: a status beginning with `"Implemented"` is included. -/
theorem claim1_amended_witness :
    (∃ rest, ("Implemented (partially)".data : Line) = "Implemented".data ++ rest)
    ∧ containsSub implNeedle
        (buildDescription ⟨"TOR-1.1".data, "Text".data, unknownTxt,
          "Implemented (partially)".data⟩) = true :=
  ⟨⟨" (partially)".data, by decide⟩,
   (claim1_amended [] []).2.2
     ⟨"TOR-1.1".data, "Text".data, unknownTxt, "Implemented (partially)".data⟩
     ⟨" (partially)".data, by decide⟩⟩

/-! ## C6: priority buckets -/

theorem statTotal_bump (p q : Line) (cov : Bool) :
    ∀ st : StatMap, statTotal p (bumpStat q cov st)
      = statTotal p st + (if q = p then 1 else 0) := by
  intro st
  induction st with
  | nil =>
    by_cases hqp : q = p
    · simp [bumpStat, statTotal, lookupStat, hqp]
    · simp [bumpStat, statTotal, lookupStat, hqp]
  | cons e rest ih =>
    obtain ⟨a, t, c⟩ := e
    by_cases haq : a = q
    · subst haq
      by_cases hap : a = p
      · subst hap
        simp [bumpStat, statTotal, lookupStat]
      · simp [bumpStat, statTotal, lookupStat, hap]
    · by_cases hap : a = p
      · subst hap
        have hqp : ¬q = a := fun h => haq h.symm
        simp [bumpStat, statTotal, lookupStat, haq, hqp]
      · simp only [bumpStat, if_neg haq]
        simp only [statTotal, lookupStat, if_neg hap]
        exact ih

theorem isKeyStat_bump (p q : Line) (cov : Bool) :
    ∀ st : StatMap, isKeyStat p (bumpStat q cov st)
      = (isKeyStat p st || decide (q = p)) := by
  intro st
  induction st with
  | nil =>
    by_cases hqp : q = p
    · simp [bumpStat, isKeyStat, lookupStat, hqp]
    · simp [bumpStat, isKeyStat, lookupStat, hqp]
  | cons e rest ih =>
    obtain ⟨a, t, c⟩ := e
    by_cases haq : a = q
    · subst haq
      by_cases hap : a = p
      · subst hap
        simp [bumpStat, isKeyStat, lookupStat]
      · simp [bumpStat, isKeyStat, lookupStat, hap]
    · by_cases hap : a = p
      · subst hap
        have hqp : ¬q = a := fun h => haq h.symm
        simp [bumpStat, isKeyStat, lookupStat, haq, hqp]
      · simp only [bumpStat, if_neg haq]
        simp only [isKeyStat, lookupStat, if_neg hap]
        exact ih

theorem statTotal_fold (tests : RTMap) (p : Line) :
    ∀ (reqs : AList) (st : StatMap),
      statTotal p (reqs.foldl
          (fun st kv => bumpStat (extractPriority kv.2) (isKeyRT kv.1 tests) st) st)
        = statTotal p st + reqs.countP (fun kv => decide (extractPriority kv.2 = p)) := by
  intro reqs
  induction reqs with
  | nil => intro st; simp
  | cons kv reqs ih =>
    intro st
    rw [List.foldl_cons, ih, statTotal_bump, List.countP_cons]
    simp only [decide_eq_true_eq]
    omega

theorem isKeyStat_fold (tests : RTMap) (p : Line) :
    ∀ (reqs : AList) (st : StatMap),
      isKeyStat p (reqs.foldl
          (fun st kv => bumpStat (extractPriority kv.2) (isKeyRT kv.1 tests) st) st)
        = (isKeyStat p st || reqs.any (fun kv => decide (extractPriority kv.2 = p))) := by
  intro reqs
  induction reqs with
  | nil => intro st; simp
  | cons kv reqs ih =>
    intro st
    rw [List.foldl_cons, ih, isKeyStat_bump, List.any_cons, Bool.or_assoc]

theorem summary_total_sum (stats : StatMap) :
    ∀ names : List Line,
      ((names.filterMap (fun p => (lookupStat p stats).map
          (fun tc => (p, tc.2, tc.1, coveragePct tc.2 tc.1)))).map
        (fun e => e.2.2.1)).sum
        = (names.map (fun p => statTotal p stats)).sum := by
  intro names
  induction names with
  | nil => rfl
  | cons p names ih =>
    rw [List.filterMap_cons]
    cases hl : lookupStat p stats with
    | none =>
      simp only [Option.map_none', List.map_cons, List.sum_cons]
      rw [ih, statTotal, hl]
      simp
    | some tc =>
      simp only [Option.map_some', List.map_cons, List.sum_cons]
      rw [ih, statTotal, hl]
      simp

theorem summary_fst (stats : StatMap) :
    ∀ names : List Line,
      ((names.filterMap (fun p => (lookupStat p stats).map
          (fun tc => (p, tc.2, tc.1, coveragePct tc.2 tc.1)))).map (fun e => e.1))
        = names.filter (fun p => isKeyStat p stats) := by
  intro names
  induction names with
  | nil => rfl
  | cons p names ih =>
    rw [List.filterMap_cons, List.filter_cons]
    cases hl : lookupStat p stats with
    | none =>
      have hk : isKeyStat p stats = false := by rw [isKeyStat, hl]; rfl
      rw [hk]
      simp only [Option.map_none', Bool.false_eq_true, if_false]
      exact ih
    | some tc =>
      have hk : isKeyStat p stats = true := by rw [isKeyStat, hl]; rfl
      rw [hk]
      simp only [Option.map_some', if_true, List.map_cons]
      rw [ih]

theorem countP_mem_cons (f : Line × Line → Line) (p : Line) (names : List Line)
    (hp : p ∉ names) :
    ∀ reqs : AList,
      reqs.countP (fun kv => decide (f kv ∈ p :: names))
        = reqs.countP (fun kv => decide (f kv = p))
          + reqs.countP (fun kv => decide (f kv ∈ names)) := by
  intro reqs
  induction reqs with
  | nil => rfl
  | cons kv reqs ih =>
    rw [List.countP_cons, List.countP_cons, List.countP_cons, ih]
    simp only [decide_eq_true_eq, List.mem_cons]
    by_cases h1 : f kv = p
    · simp [h1, hp]
      omega
    · by_cases h2 : f kv ∈ names
      · simp [h1, h2]
        omega
      · simp [h1, h2]

theorem sum_countP_mem (f : Line × Line → Line) :
    ∀ names : List Line, names.Nodup → ∀ reqs : AList,
      (names.map (fun p => reqs.countP (fun kv => decide (f kv = p)))).sum
        = reqs.countP (fun kv => decide (f kv ∈ names)) := by
  intro names
  induction names with
  | nil =>
    intro _ reqs
    simp [List.countP_eq_zero]
  | cons p names ih =>
    intro hnd reqs
    rw [List.nodup_cons] at hnd
    rw [List.map_cons, List.sum_cons, ih hnd.2 reqs]
    rw [countP_mem_cons f p names hnd.1 reqs]

theorem mergeSort_single (kv : Line × Line) : ([kv].mergeSort pairLe) = [kv] :=
  List.perm_singleton.mp (List.mergeSort_perm [kv] pairLe)

theorem matrixRows_single (kv : Line × Line) (tests : RTMap) :
    matrixRows [kv] tests = rowsFor tests kv := by
  rw [matrixRows, mergeSort_single]
  simp

/--
C6 counterexample: a requirement whose document priority annotation is the
unrecognized value `Bogus` is rendered with priority `Bogus`, not `Unknown`,
so the priority used by rendering is not confined to the five bucket names.
-/
theorem claim6_counterexample :
    (matrixRows (parseLines ["- **TOR-1.1**: Text".data,
        "  - **Priority**: Bogus".data]) []).map (fun r => r.priority)
      = ["Bogus".data]
    ∧ "Bogus".data ∉ priorityOrder := by
  have hp : parseLines ["- **TOR-1.1**: Text".data, "  - **Priority**: Bogus".data]
      = [("TOR-1.1".data,
          "Text - **Priority**: Bogus - **Impl Status**: Unknown".data)] := by decide
  rw [hp, matrixRows_single]
  exact ⟨by decide, by decide⟩

/--
C6 amended: the priority used by rendering and by the buckets is the first
word captured after the priority marker (used verbatim even when it is not
one of the four recognized names, with `Unknown` only when no capture
exists); the rendered per-priority breakdown enumerates only the five fixed
bucket names in the fixed order, so its totals sum to the number of
requirements whose extracted priority is one of those five names — any other
extracted priority is counted in no rendered bucket.
-/
theorem claim6_amended (reqs : AList) (tests : RTMap) :
    ((prioritySummaryRows (priority_stats_all reqs tests)).map (fun e => e.2.2.1)).sum
      = reqs.countP (fun kv => decide (extractPriority kv.2 ∈ priorityOrder))
    ∧ List.Sublist
        ((prioritySummaryRows (priority_stats_all reqs tests)).map (fun e => e.1))
        priorityOrder := by
  constructor
  · rw [prioritySummaryRows, summary_total_sum]
    have htot : ∀ p, statTotal p (priority_stats_all reqs tests)
        = reqs.countP (fun kv => decide (extractPriority kv.2 = p)) := by
      intro p
      have h := statTotal_fold tests p reqs []
      rw [priority_stats_all]
      rw [h]
      simp [statTotal, lookupStat]
    simp only [htot]
    exact sum_countP_mem (fun kv => extractPriority kv.2) priorityOrder (by decide) reqs
  · rw [prioritySummaryRows, summary_fst]
    exact List.filter_sublist priorityOrder

/-! ## C8: pipe escaping in rendered rows -/

/--
C8 counterexample: an Impl Status value containing a pipe is rendered in the
Implementation Status cell verbatim, without escaping, so not every pipe in
the free-text cell values taken from the inputs is escaped.
-/
theorem claim8_counterexample :
    (matrixRows (parseLines ["- **TOR-1.1**: Text".data,
        "  - **Impl Status**: Has | pipe".data]) []).map (fun r => r.implStatus)
      = ["Has | pipe".data]
    ∧ '|' ∈ ("Has | pipe".data : Line)
    ∧ escapePipes "Has | pipe".data ≠ "Has | pipe".data := by
  have hp : parseLines ["- **TOR-1.1**: Text".data,
      "  - **Impl Status**: Has | pipe".data]
      = [("TOR-1.1".data,
          "Text - **Priority**: Unknown - **Impl Status**: Has | pipe".data)] := by decide
  rw [hp, matrixRows_single]
  exact ⟨by decide, by decide, by decide⟩

/--
C8 amended: in every rendered trace-matrix row the requirement-text,
test-file and test-case cells are pipe-escaped images of their source values
(the no-coverage sentinel contains no pipe and is its own escaped image); the
identifier, priority and implementation-status cells are rendered without
escaping.
-/
theorem claim8_amended (reqs : AList) (tests : RTMap) (r : Row)
    (hr : r ∈ matrixRows reqs tests) :
    (∃ a, r.reqText = escapePipes a) ∧ (∃ b, r.testFile = escapePipes b)
    ∧ (∃ c, r.testCase = escapePipes c) := by
  rw [matrixRows, List.mem_flatMap] at hr
  obtain ⟨kv, _, hrkv⟩ := hr
  unfold rowsFor at hrkv
  cases hl : lookupRT kv.1 tests with
  | some ts =>
    rw [hl] at hrkv
    simp only [List.mem_map] at hrkv
    obtain ⟨ti, _, hti⟩ := hrkv
    refine ⟨⟨cleanText kv.2, ?_⟩, ⟨ti.1, ?_⟩, ⟨ti.2, ?_⟩⟩ <;> rw [← hti]
  | none =>
    rw [hl] at hrkv
    simp only [List.mem_singleton] at hrkv
    subst hrkv
    refine ⟨⟨cleanText kv.2, rfl⟩, ⟨noCoverageText, ?_⟩, ⟨noCoverageText, ?_⟩⟩ <;>
    · show noCoverageText = escapePipes noCoverageText
      decide

/-- C8 amended witness: the sentinel row of a concrete uncovered requirement. -/
theorem claim8_amended_witness :
    ((⟨"TOR-1.1".data, unknownTxt, unknownTxt, "Text".data,
        noCoverageText, noCoverageText⟩ : Row)
      ∈ matrixRows (parseLines ["- **TOR-1.1**: Text".data]) [])
    ∧ ((∃ a, ("Text".data : Line) = escapePipes a)
      ∧ (∃ b, noCoverageText = escapePipes b)
      ∧ (∃ c, noCoverageText = escapePipes c)) := by
  have hp : parseLines ["- **TOR-1.1**: Text".data]
      = [("TOR-1.1".data,
          "Text - **Priority**: Unknown - **Impl Status**: Unknown".data)] := by decide
  have hmem : (⟨"TOR-1.1".data, unknownTxt, unknownTxt, "Text".data,
      noCoverageText, noCoverageText⟩ : Row)
      ∈ matrixRows (parseLines ["- **TOR-1.1**: Text".data]) [] := by
    rw [hp, matrixRows_single]
    decide
  exact ⟨hmem, claim8_amended (parseLines ["- **TOR-1.1**: Text".data]) []
    ⟨"TOR-1.1".data, unknownTxt, unknownTxt, "Text".data,
      noCoverageText, noCoverageText⟩ hmem⟩

/-! ## C10: truncation of the displayed implementation status -/

/--
C10 counterexample: the extraction regex searches the combined description
left to right, so when the requirement free text itself contains the
`**Impl Status**:` marker, the displayed status comes from the free text and
is not the stored status truncated at its first hyphen.
-/
theorem claim10_counterexample :
    (matrixRows (parseLines ["- **TOR-1.1**: See **Impl Status**: Alpha note".data,
        "  - **Impl Status**: Implemented - partially".data]) []).map
        (fun r => r.implStatus)
      = ["Alpha note".data]
    ∧ pstrip (("Implemented - partially".data : Line).takeWhile (fun a => a != '-'))
        = "Implemented".data
    ∧ "Alpha note".data ≠ "Implemented".data := by
  have hp : parseLines ["- **TOR-1.1**: See **Impl Status**: Alpha note".data,
      "  - **Impl Status**: Implemented - partially".data]
      = [("TOR-1.1".data,
          ("See **Impl Status**: Alpha note - **Priority**: Unknown"
            ++ " - **Impl Status**: Implemented - partially").data)] := by decide
  rw [hp, matrixRows_single]
  exact ⟨by decide, by decide, by decide⟩

theorem pstrip_eq_self_of (s : Line) (c0 d0 : Char) (ct dt : Line)
    (hs : s = c0 :: ct) (hrev : s.reverse = d0 :: dt)
    (hc : isPySpace c0 = false) (hd : isPySpace d0 = false) : pstrip s = s := by
  rw [pstrip]
  have h1 : s.dropWhile isPySpace = s := by
    rw [hs, List.dropWhile_cons, hc]
    simp
  rw [h1, hrev, List.dropWhile_cons, hd]
  simp only [Bool.false_eq_true, if_false]
  rw [← hrev, List.reverse_reverse]

theorem searchImpl_of_matchAt (l : Line) (v : Line) (h : matchImplAt l = some v) :
    searchImpl l = some v := by
  cases l with
  | nil => simpa [searchImpl] using h
  | cons c rest => simp [searchImpl, h]

theorem searchImpl_skip :
    ∀ (j : Nat) (l : Line), j ≤ l.length →
      (∀ i, i < j → matchImplAt (l.drop i) = none) →
      searchImpl l = searchImpl (l.drop j) := by
  intro j
  induction j with
  | zero => intro l _ _; rfl
  | succ j ih =>
    intro l hlen hfail
    cases l with
    | nil => simp at hlen
    | cons c rest =>
      have h0 : matchImplAt (c :: rest) = none := by
        have := hfail 0 (Nat.succ_pos j)
        simpa using this
      have hstep : searchImpl (c :: rest) = searchImpl rest := by
        simp [searchImpl, h0]
      rw [hstep]
      have hdrop : (c :: rest).drop (j + 1) = rest.drop j := rfl
      rw [hdrop]
      apply ih rest
      · simp only [List.length_cons] at hlen
        omega
      · intro i hi
        have := hfail (i + 1) (by omega)
        simpa using this

theorem matchImplAt_marker (status : Line) (u0 : Char) (ut : Line)
    (hstat : status = u0 :: ut) (hu0 : isPySpace u0 = false) :
    matchImplAt (implMarker ++ (' ' :: status))
      = some (if u0 = '-' then [' ']
              else status.takeWhile (fun a => a != '-')) := by
  have hspace : isPySpace ' ' = true := by decide
  have hdropM : (' ' :: status).dropWhile isPySpace = status := by
    rw [List.dropWhile_cons, hspace]
    simp only [if_true]
    rw [hstat, List.dropWhile_cons, hu0]
    simp
  have htakeM : (' ' :: status).takeWhile isPySpace = [' '] := by
    rw [List.takeWhile_cons, hspace]
    simp only [if_true]
    rw [hstat, List.takeWhile_cons, hu0]
    simp
  have hgl : ((' ' :: status).takeWhile isPySpace).getLast? = some ' ' := by
    rw [htakeM]
    rfl
  simp only [matchImplAt, expectLit_append]
  rw [hdropM, hstat]
  rw [hstat] at hgl
  by_cases hdash : u0 = '-'
  · subst hdash
    simp [hgl]
  · simp [hdash]

theorem takeWhile_no_dash (s : Line) (h : '-' ∉ s) :
    s.takeWhile (fun a => a != '-') = s := by
  induction s with
  | nil => rfl
  | cons c s ih =>
    simp only [List.mem_cons, not_or] at h
    rw [List.takeWhile_cons]
    have hc : (c != '-') = true := by
      simpa [bne] using fun hcc => h.1 hcc.symm
    rw [hc]
    simp only [if_true]
    rw [ih h.2]

/--
C10 amended: when the free text and priority do not themselves produce an
earlier match of the status-extraction pattern, both renderers display in the
Implementation Status column the stripped longest non-hyphen run following
the stored status field: the text preceding the first hyphen of the stored
status value (trimmed), and the stored status verbatim when it contains no
hyphen.  (When the free text contains the `**Impl Status**:` marker the
displayed value instead comes from the leftmost match, as the counterexample
shows.)
-/
theorem claim10_amended (rid text priority status : Line)
    (t0 : Char) (tt : Line) (htext : text = t0 :: tt) (ht0 : isPySpace t0 = false)
    (u0 : Char) (ut : Line) (hstat : status = u0 :: ut) (hu0 : isPySpace u0 = false)
    (s0 : Char) (st : Line) (hrevs : status.reverse = s0 :: st)
    (hs0 : isPySpace s0 = false)
    (hpos : ∀ i, i < (text ++ " - **Priority**: ".data ++ priority ++ " - ".data).length →
      matchImplAt ((buildDescription ⟨rid, text, priority, status⟩).drop i) = none) :
    extractImplStatus (buildDescription ⟨rid, text, priority, status⟩)
      = pstrip (status.takeWhile (fun a => a != '-'))
    ∧ ('-' ∉ status →
        extractImplStatus (buildDescription ⟨rid, text, priority, status⟩) = status) := by
  have hseg : " - **Impl Status**: ".data ++ status
      = " - ".data ++ (implMarker ++ (' ' :: status)) := by
    have h0 : (' ' :: status : Line) = [' '] ++ status := rfl
    rw [h0, ← List.append_assoc, ← List.append_assoc]
    have h1 : (" - ".data ++ implMarker) ++ [' '] = " - **Impl Status**: ".data := by
      decide
    rw [h1]
  have hX : text ++ " - **Priority**: ".data ++ priority
        ++ " - **Impl Status**: ".data ++ status
      = (text ++ " - **Priority**: ".data ++ priority ++ " - ".data)
        ++ (implMarker ++ (' ' :: status)) := by
    rw [List.append_assoc (text ++ " - **Priority**: ".data ++ priority)
      (" - **Impl Status**: ".data) status, hseg,
      ← List.append_assoc (text ++ " - **Priority**: ".data ++ priority) (" - ".data)]
  have hheadX : (text ++ " - **Priority**: ".data ++ priority ++ " - ".data)
        ++ (implMarker ++ (' ' :: status))
      = t0 :: (tt ++ (" - **Priority**: ".data ++ (priority ++ (" - ".data
        ++ (implMarker ++ (' ' :: status)))))) := by
    rw [htext]
    simp [List.append_assoc]
  have hsplitLast : (text ++ " - **Priority**: ".data ++ priority ++ " - ".data)
        ++ (implMarker ++ (' ' :: status))
      = ((text ++ " - **Priority**: ".data ++ priority ++ " - ".data)
          ++ implMarker ++ [' ']) ++ status := by
    simp [List.append_assoc]
  have hrevX : ((text ++ " - **Priority**: ".data ++ priority ++ " - ".data)
        ++ (implMarker ++ (' ' :: status))).reverse
      = s0 :: (st ++ ((text ++ " - **Priority**: ".data ++ priority ++ " - ".data)
          ++ implMarker ++ [' ']).reverse) := by
    rw [hsplitLast, List.reverse_append, hrevs]
    rfl
  have hBD : buildDescription ⟨rid, text, priority, status⟩
      = (text ++ " - **Priority**: ".data ++ priority ++ " - ".data)
        ++ (implMarker ++ (' ' :: status)) := by
    rw [buildDescription]
    rw [hX]
    exact pstrip_eq_self_of _ t0 s0 _ _ hheadX hrevX ht0 hs0
  have hmatch := matchImplAt_marker status u0 ut hstat hu0
  have hsearch : searchImpl (buildDescription ⟨rid, text, priority, status⟩)
      = some (if u0 = '-' then [' '] else status.takeWhile (fun a => a != '-')) := by
    rw [hBD]
    have hskip := searchImpl_skip
      (text ++ " - **Priority**: ".data ++ priority ++ " - ".data).length
      ((text ++ " - **Priority**: ".data ++ priority ++ " - ".data)
        ++ (implMarker ++ (' ' :: status)))
      (by simp)
      (by
        intro i hi
        have := hpos i hi
        rw [hBD] at this
        exact this)
    rw [hskip, List.drop_left]
    exact searchImpl_of_matchAt _ _ hmatch
  have hmain : extractImplStatus (buildDescription ⟨rid, text, priority, status⟩)
      = pstrip (status.takeWhile (fun a => a != '-')) := by
    rw [extractImplStatus]
    rw [hsearch]
    by_cases hdash : u0 = '-'
    · simp only [hdash, if_true]
      have hrhs : status.takeWhile (fun a => a != '-') = [] := by
        rw [hstat, hdash, List.takeWhile_cons]
        simp
      rw [hrhs]
      decide
    · simp [hdash]
  refine ⟨hmain, ?_⟩
  intro hnd
  rw [hmain, takeWhile_no_dash status hnd]
  exact pstrip_eq_self_of status u0 s0 ut st hstat hrevs hu0 hs0

/-- C10 amended witness: status `Implemented - partially` displays as `Implemented`. -/
theorem claim10_amended_witness :
    extractImplStatus (buildDescription ⟨"TOR-1.1".data, "Text".data, unknownTxt,
        "Implemented - partially".data⟩)
      = pstrip (("Implemented - partially".data : Line).takeWhile (fun a => a != '-'))
    ∧ pstrip (("Implemented - partially".data : Line).takeWhile (fun a => a != '-'))
      = "Implemented".data :=
  ⟨(claim10_amended "TOR-1.1".data "Text".data unknownTxt "Implemented - partially".data
      'T' "ext".data (by decide) (by decide)
      'I' "mplemented - partially".data (by decide) (by decide)
      'y' "llaitrap - detnemelpmI".data (by decide) (by decide)
      (by decide)).1,
   by decide⟩

end TraceMatrix
